import Mathlib

/-!
Verification of the export compilation pipeline of this repository against
its natural-language specification.

The definitions below are shallow embeddings of the TypeScript source:

- `packages/myst-cli/src/build/tex/single.ts` and the co-located export
  option collection module (export job resolution, output path
  deduplication, template part extraction, per-job orchestration);
- `packages/myst-execute/src/manager.ts` (Jupyter server discovery);
- the inline citation renderer (`getInlineCitation`).

External collaborators (the unified renderer, the template engine, the
filesystem) are represented as explicit function parameters or by the
values they return.  Effects (diagnostics, render invocations, file
writes) are returned as explicit data so that theorems can speak about
them.
-/

/-! ## Decimal numerals

Embedding of JavaScript template-literal number formatting: a natural
number interpolated as a base-ten numeral. -/

/-- Single decimal digit as a character, as produced by JavaScript number
formatting for digits 0 through 9. -/
def digitChar (n : Nat) : Char :=
  match n with
  | 0 => '0' | 1 => '1' | 2 => '2' | 3 => '3' | 4 => '4'
  | 5 => '5' | 6 => '6' | 7 => '7' | 8 => '8' | _ => '9'

/-- Fuel-indexed base-ten digit expansion; the fuel always suffices when
it exceeds the number being printed. -/
def natDigitsAux (fuel : Nat) (n : Nat) : List Char :=
  match fuel with
  | 0 => []
  | fuel + 1 =>
    if n < 10 then [digitChar n]
    else natDigitsAux fuel (n / 10) ++ [digitChar (n % 10)]

/-- Decimal digit characters of a natural number, most significant first. -/
def natDigits (n : Nat) : List Char :=
  natDigitsAux (n + 1) n

theorem natDigitsAux_fuel_irrel :
    ∀ n f₁ f₂, n < f₁ → n < f₂ → natDigitsAux f₁ n = natDigitsAux f₂ n := by
  intro n
  induction n using Nat.strong_induction_on with
  | _ n ih =>
    intro f₁ f₂ h₁ h₂
    match f₁, f₂ with
    | g₁ + 1, g₂ + 1 =>
      simp only [natDigitsAux]
      by_cases hn : n < 10
      · simp [hn]
      · simp only [hn, if_neg, not_false_iff]
        have hd : n / 10 < n := Nat.div_lt_self (by omega) (by omega)
        rw [ih (n / 10) hd g₁ g₂ (by omega) (by omega)]

theorem natDigits_of_lt {n : Nat} (h : n < 10) : natDigits n = [digitChar n] := by
  simp [natDigits, natDigitsAux, h]

theorem natDigits_of_ge {n : Nat} (h : 10 ≤ n) :
    natDigits n = natDigits (n / 10) ++ [digitChar (n % 10)] := by
  have hd : n / 10 < n := Nat.div_lt_self (by omega) (by omega)
  have hstep : natDigitsAux (n + 1) n = natDigitsAux n (n / 10) ++ [digitChar (n % 10)] := by
    simp [natDigitsAux, Nat.not_lt.mpr h]
  show natDigitsAux (n + 1) n = natDigitsAux (n / 10 + 1) (n / 10) ++ [digitChar (n % 10)]
  rw [hstep, natDigitsAux_fuel_irrel (n / 10) n (n / 10 + 1) (by omega) (by omega)]

/-- Decimal numeral string, the embedding of a JS template literal hole
holding a number. -/
def natToDecimal (n : Nat) : String :=
  String.mk (natDigits n)

theorem digitChar_inj : ∀ a, a < 10 → ∀ b, b < 10 → digitChar a = digitChar b → a = b := by
  decide

theorem natDigits_ne_nil (n : Nat) : natDigits n ≠ [] := by
  by_cases h : n < 10
  · rw [natDigits_of_lt h]; simp
  · rw [natDigits_of_ge (Nat.le_of_not_lt h)]; simp

theorem natDigits_length_pos (n : Nat) : 0 < (natDigits n).length :=
  List.length_pos.mpr (natDigits_ne_nil n)

theorem natDigits_inj : ∀ m n : Nat, natDigits m = natDigits n → m = n := by
  intro m
  induction m using Nat.strong_induction_on with
  | _ m ih =>
    intro n h
    by_cases hm : m < 10 <;> by_cases hn : n < 10
    · rw [natDigits_of_lt hm, natDigits_of_lt hn] at h
      exact digitChar_inj m hm n hn (by injection h)
    · rw [natDigits_of_lt hm, natDigits_of_ge (Nat.le_of_not_lt hn)] at h
      have hlen := congrArg List.length h
      have hpos := natDigits_length_pos (n / 10)
      simp only [List.length_append, List.length_singleton] at hlen
      omega
    · rw [natDigits_of_ge (Nat.le_of_not_lt hm), natDigits_of_lt hn] at h
      have hlen := congrArg List.length h
      have hpos := natDigits_length_pos (m / 10)
      simp only [List.length_append, List.length_singleton] at hlen
      omega
    · rw [natDigits_of_ge (Nat.le_of_not_lt hm), natDigits_of_ge (Nat.le_of_not_lt hn)] at h
      have hinj := List.append_inj h (by
        have hpos1 := natDigits_length_pos (m / 10)
        have hpos2 := natDigits_length_pos (n / 10)
        have hlen := congrArg List.length h
        simp at hlen
        omega)
      have hdiv : m / 10 = n / 10 := ih (m / 10) (Nat.div_lt_self (by omega) (by omega)) _ hinj.1
      have hmod : m % 10 = n % 10 := by
        have h2 := hinj.2
        injection h2 with h1 _
        exact digitChar_inj _ (Nat.mod_lt _ (by omega)) _ (Nat.mod_lt _ (by omega)) h1
      omega

theorem natToDecimal_inj {m n : Nat} (h : natToDecimal m = natToDecimal n) : m = n := by
  apply natDigits_inj
  have := congrArg String.data h
  simpa [natToDecimal] using this

/-! ## Path handling

Embedding of the Node `path.parse` / `path.join` behavior used by the
export resolver: `parse` splits a path into directory (text before the
last slash), name and extension (the extension starts at the last dot of
the basename, unless that dot is its first character); `join dir base`
re-attaches a directory. -/

/-- Split a character list at the last occurrence of `c`: returns the
part before and the part after that occurrence, or `none` when `c` does
not occur. -/
def breakLast (c : Char) : List Char → Option (List Char × List Char)
  | [] => none
  | x :: xs =>
    match breakLast c xs with
    | some (pre, suf) => some (x :: pre, suf)
    | none => if x = c then some ([], xs) else none

/-- Embedding of Node `path.parse`, restricted to the fields the resolver
uses: directory, file name without extension, and extension (including
its leading dot). -/
def pathParse (p : String) : String × String × String :=
  let cs := p.data
  let (dir, base) :=
    match breakLast '/' cs with
    | some (d, b) => (d, b)
    | none => ([], cs)
  let (nm, ex) :=
    match breakLast '.' base with
    | some (n, e) => if n = [] then (base, []) else (n, '.' :: e)
    | none => (base, [])
  (String.mk dir, String.mk nm, String.mk ex)

/-- Embedding of Node `path.join` for the two-argument calls made by the
resolver; an empty directory contributes no separator. -/
def pathJoin (dir base : String) : String :=
  if dir = "" then base else dir ++ "/" ++ base

/-! ## Export job resolution and output path deduplication

Embedding of `prepareExportOptions` and `filterAndMakeUnique` from the
export option collection module.  An export declaration carries the
fields the resolver reads; filesystem existence checks are passed in as
a predicate. -/

/-- One export declaration, as read from front matter (the fields used by
the resolver). -/
structure ExportDecl where
  format : String
  output : Option String := none
  template : Option String := none
  articles : Option (List String) := none
  sub_articles : Option (List String) := none
deriving Repr, DecidableEq

/-- A resolved export job: the declaration with a definite output path. -/
structure ExportWithOutput where
  format : String := ""
  output : String
deriving Repr, DecidableEq

/-- Count of entries in a list whose output equals the given path, the
embedding of the `nMatch` closure inside `filterAndMakeUnique`. -/
def nMatch (out : String) (a : List ExportWithOutput) : Nat :=
  (a.filter (fun e => e.output == out)).length

/-- Rename step applied to a duplicated output path: the zero-based count
of earlier entries with the same path is inserted before the extension. -/
def dedupRename (out : String) (count : Nat) : String :=
  let (dir, nm, ex) := pathParse out
  pathJoin dir (nm ++ "_" ++ natToDecimal count ++ ex)

/-- One element of the map inside `filterAndMakeUnique`: an entry whose
output is unique across the batch is kept, otherwise it is renamed with
the count of earlier entries sharing its output. -/
def makeUniqueStep (arr : List ExportWithOutput) (ind : Nat) (exp : ExportWithOutput) :
    ExportWithOutput :=
  if nMatch exp.output arr == 1 then exp
  else { exp with output := dedupRename exp.output (nMatch exp.output (arr.take ind)) }

/-- Recursion underlying the indexed map of `filterAndMakeUnique`. -/
def makeUniqueAux (arr : List ExportWithOutput) (ind : Nat) :
    List ExportWithOutput → List ExportWithOutput
  | [] => []
  | e :: rest => makeUniqueStep arr ind e :: makeUniqueAux arr (ind + 1) rest

/-- Embedding of `filterAndMakeUnique`: drop absent entries, then
disambiguate duplicated output paths with a numeric suffix before the
extension. -/
def filterAndMakeUnique (exports : List (Option ExportWithOutput)) : List ExportWithOutput :=
  let arr := exports.filterMap id
  makeUniqueAux arr 0 arr

theorem makeUniqueAux_get? (arr : List ExportWithOutput) :
    ∀ (l : List ExportWithOutput) (ind k : Nat),
      (makeUniqueAux arr ind l).get? k = (l.get? k).map (makeUniqueStep arr (ind + k)) := by
  intro l
  induction l with
  | nil => intro ind k; simp [makeUniqueAux]
  | cons e rest ih =>
    intro ind k
    cases k with
    | zero => simp [makeUniqueAux]
    | succ k' =>
      simp only [makeUniqueAux, List.get?]
      rw [ih (ind + 1) k']
      have harith : ind + 1 + k' = ind + (k' + 1) := by omega
      rw [harith]

theorem filterAndMakeUnique_map_some (arr : List ExportWithOutput) :
    filterAndMakeUnique (arr.map some) = makeUniqueAux arr 0 arr := by
  simp [filterAndMakeUnique, List.filterMap_map, Function.comp]

theorem string_append_cancel_left {a b c : String} (h : a ++ b = a ++ c) : b = c := by
  apply String.ext
  have hd := congrArg String.data h
  simp only [String.data_append] at hd
  exact List.append_cancel_left hd

theorem string_append_cancel_right {a b c : String} (h : a ++ c = b ++ c) : a = b := by
  apply String.ext
  have hd := congrArg String.data h
  simp only [String.data_append] at hd
  exact List.append_cancel_right hd

theorem dedupRename_count_inj (p : String) {c₁ c₂ : Nat}
    (h : dedupRename p c₁ = dedupRename p c₂) : c₁ = c₂ := by
  unfold dedupRename pathJoin at h
  by_cases hd : (pathParse p).1 = ""
  · simp only [hd, if_pos] at h
    have h1 := string_append_cancel_right h
    have h2 := string_append_cancel_left h1
    exact natToDecimal_inj h2
  · simp only [hd, if_neg, not_false_iff] at h
    have h0 := string_append_cancel_left h
    have h1 := string_append_cancel_right h0
    have h2 := string_append_cancel_left h1
    exact natToDecimal_inj h2

theorem nMatch_append (p : String) (l₁ l₂ : List ExportWithOutput) :
    nMatch p (l₁ ++ l₂) = nMatch p l₁ + nMatch p l₂ := by
  simp [nMatch, List.filter_append]

theorem nMatch_take_le (p : String) (x : List ExportWithOutput) (m : Nat) :
    nMatch p (x.take m) ≤ nMatch p x := by
  conv_rhs => rw [← List.take_append_drop m x]
  rw [nMatch_append]
  omega

theorem nMatch_take_mono (p : String) (l : List ExportWithOutput) {m n : Nat} (h : m ≤ n) :
    nMatch p (l.take m) ≤ nMatch p (l.take n) := by
  have : l.take m = (l.take n).take m := by
    rw [List.take_take, Nat.min_eq_left h]
  rw [this]
  exact nMatch_take_le p (l.take n) m

theorem makeUniqueStep_output_of_dup (arr : List ExportWithOutput) (ind : Nat)
    (exp : ExportWithOutput) (h : nMatch exp.output arr ≠ 1) :
    (makeUniqueStep arr ind exp).output =
      dedupRename exp.output (nMatch exp.output (arr.take ind)) := by
  unfold makeUniqueStep
  rw [if_neg (by simpa using h)]

theorem nMatch_take_succ (p : String) (l : List ExportWithOutput) {i : Nat}
    (hi : i < l.length) (hp : (l.get ⟨i, hi⟩).output = p) :
    nMatch p (l.take (i + 1)) = nMatch p (l.take i) + 1 := by
  rw [List.take_succ]
  rw [nMatch_append]
  have hsome : l[i]? = some (l.get ⟨i, hi⟩) := List.getElem?_eq_getElem hi
  rw [hsome]
  have hp2 : l[i].output = p := by simpa [List.get_eq_getElem] using hp
  simp [nMatch, List.filter, hp2]

/-- C1: the claim states that when two jobs in one batch compute the
identical output path out/file.tex, the resolved outputs are out/file.tex
and out/file_1.tex, the first duplicate keeping the unsuffixed path.  The
code disagrees: the suffix is the count of earlier duplicates, which is 0
for the first duplicate, so no duplicate keeps the unsuffixed path. -/
theorem C1_counterexample :
    (filterAndMakeUnique
        [some { output := "out/file.tex" }, some { output := "out/file.tex" }]).map
      (fun e => e.output) ≠ ["out/file.tex", "out/file_1.tex"] := by
  decide

/-- C1 amended: duplicates are disambiguated with a zero-based suffix
counting the earlier entries with the same path, so the first duplicate
receives the suffix 0 rather than keeping the unsuffixed path; two jobs
computing out/file.tex resolve to out/file_0.tex and out/file_1.tex. -/
theorem C1_amended :
    (∀ e : ExportWithOutput, filterAndMakeUnique [some e, some e] =
      [{ e with output := dedupRename e.output 0 },
       { e with output := dedupRename e.output 1 }]) ∧
    (filterAndMakeUnique
        [some { output := "out/file.tex" }, some { output := "out/file.tex" }]).map
      (fun e => e.output) = ["out/file_0.tex", "out/file_1.tex"] := by
  constructor
  · intro e
    simp [filterAndMakeUnique, makeUniqueAux, makeUniqueStep, nMatch, List.filter]
  · decide

/-- C2: the claim states the final output paths of a batch are always
pairwise distinct, including when a declared path already carries a
dedup-style suffix.  On the batch x.tex, x.tex, x_0.tex the code renames
the first two to x_0.tex and x_1.tex and keeps the declared x_0.tex
untouched, so two jobs share the output x_0.tex. -/
theorem C2_counterexample :
    ((filterAndMakeUnique [some { output := "x.tex" }, some { output := "x.tex" },
        some { output := "x_0.tex" }]).map (fun e => e.output) =
      ["x_0.tex", "x_1.tex", "x_0.tex"]) ∧
    ¬ ((filterAndMakeUnique [some { output := "x.tex" }, some { output := "x.tex" },
        some { output := "x_0.tex" }]).map (fun e => e.output)).Nodup := by
  constructor
  · decide
  · decide

/-- C2 amended: any two jobs of one batch whose computed output paths are
identical receive pairwise distinct final paths (their suffixes count the
earlier occurrences of the shared path, so they differ); batch-wide
distinctness can still fail when a distinct declared path already carries
a dedup-style suffix, as the counterexample records. -/
theorem C2_amended (arr : List ExportWithOutput) (i j : Nat) (hij : i < j)
    (hj : j < arr.length)
    (heq : (arr.get ⟨i, lt_trans hij hj⟩).output = (arr.get ⟨j, hj⟩).output) :
    ∀ a b, (filterAndMakeUnique (arr.map some)).get? i = some a →
      (filterAndMakeUnique (arr.map some)).get? j = some b →
      a.output ≠ b.output := by
  intro a b ha hb
  have hi : i < arr.length := lt_trans hij hj
  rw [filterAndMakeUnique_map_some, makeUniqueAux_get? arr arr 0 i] at ha
  rw [filterAndMakeUnique_map_some, makeUniqueAux_get? arr arr 0 j] at hb
  rw [List.get?_eq_get hi] at ha
  rw [List.get?_eq_get hj] at hb
  simp only [Option.map_some, Nat.zero_add] at ha hb
  have ha2 : a = makeUniqueStep arr i (arr.get ⟨i, hi⟩) := by
    injection ha with h1; exact h1.symm
  have hb2 : b = makeUniqueStep arr j (arr.get ⟨j, hj⟩) := by
    injection hb with h1; exact h1.symm
  have heq2 : (arr.get ⟨i, hi⟩).output = (arr.get ⟨j, hj⟩).output := heq
  have hpi : (arr.get ⟨i, hi⟩).output = (arr.get ⟨i, hi⟩).output := rfl
  have hpj : (arr.get ⟨j, hj⟩).output = (arr.get ⟨i, hi⟩).output := heq2.symm
  have hsucci := nMatch_take_succ ((arr.get ⟨i, hi⟩).output) arr hi hpi
  have hsuccj := nMatch_take_succ ((arr.get ⟨i, hi⟩).output) arr hj hpj
  have hmono := nMatch_take_mono ((arr.get ⟨i, hi⟩).output) arr (show i + 1 ≤ j by omega)
  have hle := nMatch_take_le ((arr.get ⟨i, hi⟩).output) arr (j + 1)
  have htakelen : arr.take arr.length = arr := List.take_length arr
  have hcnt : 2 ≤ nMatch ((arr.get ⟨i, hi⟩).output) arr := by omega
  have hlt : nMatch ((arr.get ⟨i, hi⟩).output) (arr.take i) <
      nMatch ((arr.get ⟨i, hi⟩).output) (arr.take j) := by omega
  have houta : a.output =
      dedupRename ((arr.get ⟨i, hi⟩).output)
        (nMatch ((arr.get ⟨i, hi⟩).output) (arr.take i)) := by
    rw [ha2, makeUniqueStep_output_of_dup arr i (arr.get ⟨i, hi⟩) (by omega)]
  have houtb : b.output =
      dedupRename ((arr.get ⟨i, hi⟩).output)
        (nMatch ((arr.get ⟨i, hi⟩).output) (arr.take j)) := by
    rw [hb2, makeUniqueStep_output_of_dup arr j (arr.get ⟨j, hj⟩) (by rw [hpj]; omega)]
    rw [hpj]
  intro hcontra
  rw [houta, houtb] at hcontra
  have := dedupRename_count_inj ((arr.get ⟨i, hi⟩).output) hcontra
  omega

/-- Witness for the amended C2 theorem at the concrete two-job batch. -/
theorem C2_amended_witness :
    ({ output := "out/file_0.tex" } : ExportWithOutput).output ≠
      ({ output := "out/file_1.tex" } : ExportWithOutput).output := by
  have h := C2_amended [{ output := "out/file.tex" }, { output := "out/file.tex" }] 0 1
    (by decide) (by decide) (by decide)
    { output := "out/file_0.tex" } { output := "out/file_1.tex" }
    (by decide) (by decide)
  exact h

/-! ## Export option preparation

Embedding of `prepareExportOptions`: reading declared exports, default
job synthesis under force, CLI truncation, article defaulting and
validation.  The filesystem is a predicate parameter; vfile diagnostics
do not influence the returned list and are not tracked. -/

/-- The CLI override options read by the resolver. -/
structure ExportOptsCLI where
  filename : Option String := none
  template : Option String := none
  disableTemplate : Option Bool := none
  force : Bool := false
  zip : Bool := false
deriving Repr, DecidableEq

/-- JS truthiness of an optional string: absent and empty are falsy. -/
def truthyStr : Option String → Bool
  | none => false
  | some s => !(s == "")

/-- JS truthiness of an optional boolean flag. -/
def truthyFlag : Option Bool → Bool
  | none => false
  | some b => b

/-- Recognized content extensions for defaulting `articles`. -/
def SOURCE_EXTENSIONS : List String := [".ipynb", ".md", ".tex"]

/-- Extension of a path, embedding Node `path.extname`. -/
def extnameOf (p : String) : String := (pathParse p).2.2

/-- Directory of a path, embedding Node `path.dirname`. -/
def dirnameOf (p : String) : String := (pathParse p).1

/-- Embedding of `path.resolve(dir, f)` for the relative paths the
resolver constructs. -/
def resolvePath (dir f : String) : String := pathJoin dir f

/-- Embedding of `prepareExportOptions`: declared exports (or one
synthesized default when none are declared, a format is requested and
force is set), truncated to one entry when a filename, template or
disable-template override is supplied, then article defaulting,
sub-article validation and removal of exports with no articles. -/
def prepareExportOptions (fsExists : String → Bool) (sourceFile : String)
    (declared : List ExportDecl) (formats : List String) (opts : ExportOptsCLI) :
    List ExportDecl :=
  let exportOptions :=
    if declared.length == 0 && !(formats.length == 0) && opts.force then
      [{ format := formats.headD "" }]
    else declared
  let exportOptions :=
    if truthyStr opts.filename || truthyFlag opts.disableTemplate || truthyStr opts.template then
      exportOptions.take 1
    else exportOptions
  let exportOptions := exportOptions.map (fun exp =>
    let exp :=
      if exp.articles == none && SOURCE_EXTENSIONS.contains (extnameOf sourceFile) then
        { exp with articles := some [sourceFile] }
      else exp
    match exp.sub_articles with
    | none => exp
    | some subs =>
      let kept := some ((subs.map (resolvePath (dirnameOf sourceFile))).filter fsExists)
      { exp with sub_articles := kept })
  exportOptions.filterMap (fun exp =>
    if (exp.articles.getD []).length == 0 then
      if exp.format == "meca" then some exp else none
    else
      let resolved := ((exp.articles.getD []).map (fun a =>
        let r := resolvePath (dirnameOf sourceFile) a
        if fsExists r then some r else none)).filterMap id
      some { exp with articles := some resolved })

/-- C3: the claim states that supplying any of the five override options,
force and zip included, truncates the resolved export list to at most one
job.  The code truncates only for filename, disableTemplate and template:
with two declared exports and only force and zip set, both jobs survive. -/
theorem C3_counterexample :
    (prepareExportOptions (fun _ => true) "in.md"
      [{ format := "tex", articles := some ["a.md"] },
       { format := "tex", articles := some ["b.md"] }]
      ["tex"] { force := true, zip := true }).length = 2 ∧
    ¬ (prepareExportOptions (fun _ => true) "in.md"
      [{ format := "tex", articles := some ["a.md"] },
       { format := "tex", articles := some ["b.md"] }]
      ["tex"] { force := true, zip := true }).length ≤ 1 := by
  constructor
  · rfl
  · decide

/-- C3 amended: the resolved export list is truncated to at most one job
exactly when a filename, template, or disable-template override is
supplied; the force and zip overrides do not truncate. -/
theorem C3_amended (fsExists : String → Bool) (sourceFile : String)
    (declared : List ExportDecl) (formats : List String) (opts : ExportOptsCLI)
    (hcond : (truthyStr opts.filename || truthyFlag opts.disableTemplate ||
      truthyStr opts.template) = true) :
    (prepareExportOptions fsExists sourceFile declared formats opts).length ≤ 1 := by
  unfold prepareExportOptions
  simp only [hcond, if_true]
  refine le_trans (List.length_filterMap_le _ _) ?_
  rw [List.length_map, List.length_take]
  omega

/-- Witness for the amended C3 theorem: a filename override with two
declared exports leaves at most one job. -/
theorem C3_amended_witness :
    (prepareExportOptions (fun _ => true) "in.md"
      [{ format := "tex", articles := some ["a.md"] },
       { format := "tex", articles := some ["b.md"] }]
      ["tex"] { filename := some "out.tex" }).length ≤ 1 :=
  C3_amended (fun _ => true) "in.md"
    [{ format := "tex", articles := some ["a.md"] },
     { format := "tex", articles := some ["b.md"] }]
    ["tex"] { filename := some "out.tex" } (by decide)

/-! ## Document tree and template part extraction

Embedding of the mdast tree shape used by `extractTexPart`: nodes carry a
type tag and children.  `selectAllType` embeds the unist selectAll query
for a type selector, which matches every node of the subtree, nested
descendants included.  `mdastToTex` is the external unified renderer; a
fragment is represented by the root-wrapped tree that the code passes to
one renderer invocation, so the number of fragments a part yields equals
the length of the list below. -/

/-- Generic mdast node: a type tag and children. -/
inductive GNode where
  | mk (ty : String) (children : List GNode)

/-- Type tag of a node. -/
def GNode.ty : GNode → String
  | .mk t _ => t

/-- Children of a node. -/
def GNode.children : GNode → List GNode
  | .mk _ c => c

mutual

/-- Embedding of selectAll with a type selector: all nodes of the
subtree, the root included, whose type equals the selector. -/
def selectAllType (t : String) : GNode → List GNode
  | .mk ty ch => (if ty == t then [GNode.mk ty ch] else []) ++ selectAllTypeList t ch

/-- selectAllType over a forest, in document order. -/
def selectAllTypeList (t : String) : List GNode → List GNode
  | [] => []
  | n :: ns => selectAllType t n ++ selectAllTypeList t ns

end

/-- The structural condition of the as_list branch of `extractTexPart`:
the part has exactly one child, which has exactly one child whose type
is list. -/
def listShaped (part : GNode) : Bool :=
  match part.children with
  | [w] =>
    match w.children with
    | [l] => l.ty == "list"
    | _ => false
  | _ => false

/-- Embedding of the as_list branching of `extractTexPart`, after the
external extractPart selector has produced the part subtree: each element
of the returned list is the root-wrapped tree handed to one renderer
invocation, in other words one Fragment. -/
def extractTexPartFragments (part : GNode) (asList : Bool) : List GNode :=
  if !asList then [part]
  else if listShaped part then
    (selectAllType "listItem" part).map (fun item => GNode.mk "root" item.children)
  else part.children.map (fun b => GNode.mk "root" [b])

/-- A part subtree of wrapper/wrapper/list shape whose single top-level
list item contains a nested list with one further item. -/
def partNestedList : GNode :=
  GNode.mk "root" [GNode.mk "block"
    [GNode.mk "list" [GNode.mk "listItem" [GNode.mk "list" [GNode.mk "listItem" []]]]]]

/-- A part subtree of wrapper/wrapper/list shape with three flat items. -/
def partFlatList : GNode :=
  GNode.mk "root" [GNode.mk "block"
    [GNode.mk "list" [GNode.mk "listItem" [], GNode.mk "listItem" [],
      GNode.mk "listItem" []]]]

theorem gnode_eta (n : GNode) : GNode.mk n.ty n.children = n := by
  cases n
  rfl

theorem selectAllTypeList_all_match (t : String) :
    ∀ items : List GNode,
      (∀ it ∈ items, it.ty = t ∧ selectAllTypeList t it.children = []) →
      selectAllTypeList t items = items := by
  intro items
  induction items with
  | nil => intro _; rfl
  | cons it rest ih =>
    intro h
    have hit := h it (by simp)
    have hrest := ih (fun x hx => h x (by simp [hx]))
    cases it with
    | mk ty ch =>
      simp only [selectAllTypeList, selectAllType]
      simp only [GNode.ty] at hit
      simp only [GNode.children] at hit
      rw [hit.1]
      simp only [beq_self_eq_true, if_true, hit.2, hrest]
      rfl

/-- C4: the claim states that a wrapper/wrapper/list part with k list
items yields exactly k Fragments even when list items contain nested
lists.  The code collects every listItem descendant via selectAll, so a
single top-level item holding a nested one-item list yields 2 fragments,
not 1. -/
theorem C4_counterexample :
    listShaped partNestedList = true ∧
    (extractTexPartFragments partNestedList true).length = 2 ∧
    (extractTexPartFragments partNestedList true).length ≠ 1 := by
  refine ⟨rfl, rfl, ?_⟩
  decide

/-- C4 amended: a wrapper/wrapper/list part yields one Fragment per
listItem node of the whole subtree; this equals the number k of top-level
list items exactly when no item contains a nested listItem, and a part
that is not list-shaped yields one Fragment per top-level child block. -/
theorem C4_amended (pty wty : String) (items : List GNode)
    (hp : (pty == "listItem") = false) (hw : (wty == "listItem") = false)
    (hitems : ∀ it ∈ items, it.ty = "listItem" ∧
      selectAllTypeList "listItem" it.children = []) :
    (extractTexPartFragments
        (GNode.mk pty [GNode.mk wty [GNode.mk "list" items]]) true).length
      = items.length ∧
    ∀ part : GNode, listShaped part = false →
      (extractTexPartFragments part true).length = part.children.length := by
  constructor
  · have hshape : listShaped (GNode.mk pty [GNode.mk wty [GNode.mk "list" items]]) = true := by
      simp [listShaped, GNode.children, GNode.ty]
    simp only [extractTexPartFragments, Bool.not_true, if_false, hshape, if_true]
    simp only [selectAllType, selectAllTypeList, hp, hw, if_false]
    rw [selectAllTypeList_all_match "listItem" items hitems]
    simp [List.length_map, List.length_append, selectAllTypeList]
  · intro part hns
    simp [extractTexPartFragments, hns]

/-- Witness for the amended C4 theorem at a flat three-item list part. -/
theorem C4_amended_witness :
    (extractTexPartFragments partFlatList true).length = 3 :=
  (C4_amended "root" "block"
    [GNode.mk "listItem" [], GNode.mk "listItem" [], GNode.mk "listItem" []]
    rfl rfl
    (by
      intro it hit
      simp only [List.mem_cons, List.not_mem_nil, or_false] at hit
      rcases hit with h | h | h <;> subst h <;> exact ⟨rfl, rfl⟩)).1

/-! ## Side data merging

The implementations of mergeTexTemplateImports (package jtex) and
mergePreambles (package myst-to-tex) are not under the sources provided
for this repository; only their call sites in single.ts are.  They are
therefore modelled from the specification.  Diagnostics are returned as
the list of overwritten keys. -/

/-- Accumulated tex imports and macro commands. -/
structure TexTemplateImports where
  imports : List String := []
  commands : List (String × String) := []
deriving Repr, DecidableEq

/-- Lookup in a string-keyed record, embedding JS property access. -/
def lookupRecord {α : Type} (k : String) : List (String × α) → Option α
  | [] => none
  | (k', v) :: rest => if k' == k then some v else lookupRecord k rest

/-- Assignment in a string-keyed record, embedding JS property
assignment: an existing key keeps its position, a new key is appended. -/
def recordSet {α : Type} (k : String) (v : α) : List (String × α) → List (String × α)
  | [] => [(k, v)]
  | (k', v') :: rest => if k' == k then (k, v) :: rest else (k', v') :: recordSet k v rest

/-- Deduplication keeping first occurrences, relative to already seen
elements. -/
def dedupFirstAux (seen : List String) : List String → List String
  | [] => []
  | x :: xs => if x ∈ seen then dedupFirstAux seen xs else x :: dedupFirstAux (x :: seen) xs

/-- Deduplication by first occurrence. -/
def dedupFirst (l : List String) : List String := dedupFirstAux [] l

/-- One step of a last-write-wins union: an already present key is
overwritten and recorded as a conflict, a new key is appended. -/
def unionLastWinsStep (acc : List (String × String) × List String) (kv : String × String) :
    List (String × String) × List String :=
  if (lookupRecord kv.1 acc.1).isSome then (recordSet kv.1 kv.2 acc.1, acc.2 ++ [kv.1])
  else (acc.1 ++ [kv], acc.2)

/-- Union by key with last write winning; also returns the overwritten
keys in order. -/
def unionLastWins (a b : List (String × String)) :
    List (String × String) × List String :=
  b.foldl unionLastWinsStep (a, [])

/-- Modelled from the spec: jtex mergeTexTemplateImports, whose
implementation is not under the provided sources.  Imports are
concatenated and deduplicated by first occurrence; the command (macro)
mapping is unioned by key with the later value overwriting, and the
diagnostic callback the spec prescribes for every overwritten macro key
is embedded as the returned list of those keys, in order. -/
def mergeTexTemplateImports (a b : TexTemplateImports) :
    TexTemplateImports × List String :=
  ({ imports := dedupFirst (a.imports ++ b.imports),
     commands := (unionLastWins a.commands b.commands).1 },
   (unionLastWins a.commands b.commands).2)

/-- Preamble side data: two booleans combined by OR and two key
mappings unioned with last write winning. -/
structure PreambleData where
  hasProofs : Bool := false
  printGlossaries : Bool := false
  glossary : List (String × String) := []
  abbreviations : List (String × String) := []
deriving Repr, DecidableEq

/-- Modelled from the spec: myst-to-tex mergePreambles, whose
implementation is not under the provided sources.  Booleans are ORed;
glossary and abbreviation mappings are unioned by key with the later
value overwriting and a diagnostic for every overwritten key, returned
here as the list of those keys. -/
def mergePreambles (cur nxt : PreambleData) : PreambleData × List String :=
  let g := unionLastWins cur.glossary nxt.glossary
  let ab := unionLastWins cur.abbreviations nxt.abbreviations
  ({ hasProofs := cur.hasProofs || nxt.hasProofs,
     printGlossaries := cur.printGlossaries || nxt.printGlossaries,
     glossary := g.1, abbreviations := ab.1 }, g.2 ++ ab.2)

theorem mem_dedupFirstAux :
    ∀ (l : List String) (seen : List String) (x : String),
      x ∈ dedupFirstAux seen l ↔ x ∈ l ∧ x ∉ seen := by
  intro l
  induction l with
  | nil => intro seen x; simp [dedupFirstAux]
  | cons y ys ih =>
    intro seen x
    by_cases hy : y ∈ seen
    · simp only [dedupFirstAux, hy, if_true]
      rw [ih]
      constructor
      · rintro ⟨hx, hns⟩
        exact ⟨List.mem_cons_of_mem y hx, hns⟩
      · rintro ⟨hx, hns⟩
        rcases List.mem_cons.mp hx with h | h
        · subst h; exact absurd hy hns
        · exact ⟨h, hns⟩
    · simp only [dedupFirstAux, hy, if_false]
      constructor
      · intro hx
        rcases List.mem_cons.mp hx with h | h
        · subst h; exact ⟨List.mem_cons_self _ _, hy⟩
        · rw [ih] at h
          refine ⟨List.mem_cons_of_mem y h.1, ?_⟩
          have := h.2
          intro hc
          exact this (List.mem_cons_of_mem y hc)
      · rintro ⟨hx, hns⟩
        rcases List.mem_cons.mp hx with h | h
        · subst h; exact List.mem_cons_self x _
        · by_cases hxy : x = y
          · subst hxy; exact List.mem_cons_self x _
          · apply List.mem_cons_of_mem
            rw [ih]
            refine ⟨h, ?_⟩
            intro hc
            rcases List.mem_cons.mp hc with h2 | h2
            · exact hxy h2
            · exact hns h2

theorem dedupFirstAux_idem :
    ∀ (w : List String) (s t : List String), (∀ x ∈ t, x ∈ s) →
      dedupFirstAux s (dedupFirstAux t w) = dedupFirstAux s w := by
  intro w
  induction w with
  | nil => intro s t _; rfl
  | cons x xs ih =>
    intro s t hts
    by_cases hxt : x ∈ t
    · have hxs : x ∈ s := hts x hxt
      simp only [dedupFirstAux, hxt, if_true, hxs]
      exact ih s t hts
    · simp only [dedupFirstAux, hxt, if_false]
      by_cases hxs : x ∈ s
      · simp only [dedupFirstAux, hxs, if_true]
        exact ih s (x :: t) (by
          intro y hy
          rcases List.mem_cons.mp hy with h | h
          · subst h; exact hxs
          · exact hts y h)
      · simp only [dedupFirstAux, hxs, if_false]
        rw [ih (x :: s) (x :: t) (by
          intro y hy
          rcases List.mem_cons.mp hy with h | h
          · subst h; exact List.mem_cons_self _ _
          · exact List.mem_cons_of_mem x (hts y h))]

theorem dedupFirstAux_append_left :
    ∀ (u : List String) (s v : List String),
      dedupFirstAux s (dedupFirstAux s u ++ v) = dedupFirstAux s (u ++ v) := by
  intro u
  induction u with
  | nil =>
    intro s v
    rfl
  | cons x xs ih =>
    intro s v
    by_cases hxs : x ∈ s
    · simp only [dedupFirstAux, hxs, if_true, List.cons_append]
      exact ih s v
    · simp only [dedupFirstAux, hxs, if_false, List.cons_append]
      rw [ih (x :: s) v]
      rfl

theorem dedupFirstAux_append_right :
    ∀ (u : List String) (s w : List String),
      dedupFirstAux s (u ++ dedupFirst w) = dedupFirstAux s (u ++ w) := by
  intro u
  induction u with
  | nil =>
    intro s w
    simp only [List.nil_append]
    exact dedupFirstAux_idem w s [] (by intro x hx; cases hx)
  | cons x xs ih =>
    intro s w
    by_cases hxs : x ∈ s
    · simp only [List.cons_append, dedupFirstAux, hxs, if_true]
      exact ih s w
    · simp only [List.cons_append, dedupFirstAux, hxs, if_false]
      simp only [List.append_eq]
      rw [ih (x :: s) w]

theorem dedupFirst_append_left (u v : List String) :
    dedupFirst (dedupFirst u ++ v) = dedupFirst (u ++ v) :=
  dedupFirstAux_append_left u [] v

theorem dedupFirst_append_right (u w : List String) :
    dedupFirst (u ++ dedupFirst w) = dedupFirst (u ++ w) :=
  dedupFirstAux_append_right u [] w

/-- C8: the claim states the side-data merge is commutative for the
ordered import list.  Deduplication keeps first-seen order, so merging
two singleton import lists in the two orders yields the two orders
back, which differ. -/
theorem C8_counterexample :
    (mergeTexTemplateImports { imports := ["a"] } { imports := ["b"] }).1.imports ≠
      (mergeTexTemplateImports { imports := ["b"] } { imports := ["a"] }).1.imports := by
  decide

/-- C8 amended: the import merge is associative, and commutative only up
to membership (the ordered result depends on argument order); the two
preamble booleans merge by OR, associatively and commutatively; the
macro mapping and the glossary and abbreviation mappings merge by key
with the later value winning, so merging a mapping of key a to one
value with a mapping of key a to a second value yields the second value
together with exactly one conflict diagnostic, for the key a, both for
the macro mapping and for the glossary mapping. -/
theorem C8_amended :
    (∀ a b c : TexTemplateImports,
      (mergeTexTemplateImports (mergeTexTemplateImports a b).1 c).1.imports =
        (mergeTexTemplateImports a (mergeTexTemplateImports b c).1).1.imports) ∧
    (∀ a b : TexTemplateImports, ∀ s : String,
      s ∈ (mergeTexTemplateImports a b).1.imports ↔
        s ∈ (mergeTexTemplateImports b a).1.imports) ∧
    (∀ p q : PreambleData,
      (mergePreambles p q).1.hasProofs = (mergePreambles q p).1.hasProofs ∧
      (mergePreambles p q).1.printGlossaries = (mergePreambles q p).1.printGlossaries) ∧
    (∀ p q r : PreambleData,
      (mergePreambles (mergePreambles p q).1 r).1.hasProofs =
        (mergePreambles p (mergePreambles q r).1).1.hasProofs ∧
      (mergePreambles (mergePreambles p q).1 r).1.printGlossaries =
        (mergePreambles p (mergePreambles q r).1).1.printGlossaries) ∧
    (∀ v₁ v₂ : String,
      mergeTexTemplateImports { commands := [("a", v₁)] } { commands := [("a", v₂)] } =
        ({ commands := [("a", v₂)] }, ["a"])) ∧
    (∀ v₁ v₂ : String,
      mergePreambles { glossary := [("a", v₁)] } { glossary := [("a", v₂)] } =
        ({ glossary := [("a", v₂)] }, ["a"])) := by
  refine ⟨?_, ?_, ?_, ?_, ?_, ?_⟩
  · intro a b c
    simp only [mergeTexTemplateImports]
    rw [dedupFirst_append_left, dedupFirst_append_right, List.append_assoc]
  · intro a b s
    simp only [mergeTexTemplateImports, dedupFirst, mem_dedupFirstAux, List.mem_append,
      List.not_mem_nil, not_false_iff, and_true]
    exact Or.comm
  · intro p q
    exact ⟨Bool.or_comm p.hasProofs q.hasProofs,
      Bool.or_comm p.printGlossaries q.printGlossaries⟩
  · intro p q r
    exact ⟨Bool.or_assoc p.hasProofs q.hasProofs r.hasProofs,
      Bool.or_assoc p.printGlossaries q.printGlossaries r.printGlossaries⟩
  · intro v₁ v₂
    rfl
  · intro v₁ v₂
    rfl

/-! ## Template part collection across articles

Embedding of the part-collection loop of `localArticleToTexTemplated`
(lines 215 to 235 of single.ts).  The extraction result for one article
and one part id is the value `extractTexPart` returns: absent, a single
rendered result, or a list of rendered results in the as_list case; the
renderer is external, so extraction is a function parameter.  Warnings
are logged structurally as pairs of part id and article. -/

/-- Rendered result of one renderer invocation: the tex value and its
template imports. -/
structure LatexResult where
  value : String := ""
  imports : TexTemplateImports := {}
deriving Repr, DecidableEq

/-- A stored part value: one string, or a list of strings in the as_list
case. -/
inductive PartVal where
  | str (s : String)
  | list (l : List String)
deriving Repr, DecidableEq

/-- JS truthiness of a stored part value: an empty string is falsy, an
array is truthy even when empty. -/
def truthyPartVal : Option PartVal → Bool
  | none => false
  | some (.str s) => !(s == "")
  | some (.list _) => true

/-- State threaded through the part-collection loop. -/
structure PartsState where
  parts : List (String × PartVal) := []
  warnings : List (String × String) := []
  collectedImports : TexTemplateImports := {}
deriving Repr, DecidableEq

/-- Embedding of one iteration of the partDefinitions loop for one
article: with a truthy existing value and a present extraction, the
existing value is kept and a warning is logged; otherwise a present
extraction is stored, merging its imports (single.ts assigns the merged
value and passes no callback at these call sites, so only the merged
component is kept here); an absent extraction changes nothing. -/
def processPartDef (article : String)
    (extractRes : Option (Sum LatexResult (List LatexResult)))
    (defId : String) (st : PartsState) : PartsState :=
  match extractRes with
  | none => st
  | some p =>
    if truthyPartVal (lookupRecord defId st.parts) then
      { st with warnings := st.warnings ++ [(defId, article)] }
    else
      match p with
      | .inr l =>
        { st with
          collectedImports := l.foldl
            (fun acc item => (mergeTexTemplateImports acc item.imports).1) st.collectedImports,
          parts := recordSet defId (PartVal.list (l.map (fun r => r.value))) st.parts }
      | .inl r =>
        { st with
          collectedImports := (mergeTexTemplateImports st.collectedImports r.imports).1,
          parts := recordSet defId (PartVal.str r.value) st.parts }

/-- The partDefinitions loop for one article. -/
def processArticle (article : String)
    (extract : String → Option (Sum LatexResult (List LatexResult)))
    (defs : List String) (st : PartsState) : PartsState :=
  defs.foldl (fun s d => processPartDef article (extract d) d s) st

/-- Part collection across the articles of one job, in order; each
article comes with its extraction function. -/
def processArticles
    (articles : List (String × (String → Option (Sum LatexResult (List LatexResult)))))
    (defs : List String) : PartsState :=
  articles.foldl (fun s a => processArticle a.1 a.2 defs s) {}

/-- C6: the claim states first-writer-wins with a diagnostic for every
possible first value, an empty rendered value included.  An empty-string
first value is falsy in the JS guard, so a later article silently
overwrites it: two articles whose part renders empty then non-empty end
with the later value and no warning. -/
theorem C6_counterexample :
    lookupRecord "abstract"
      (processArticles
        [("a1.md", fun _ => some (Sum.inl { value := "" })),
         ("a2.md", fun _ => some (Sum.inl { value := "second" }))]
        ["abstract"]).parts = some (PartVal.str "second") ∧
    (processArticles
        [("a1.md", fun _ => some (Sum.inl { value := "" })),
         ("a2.md", fun _ => some (Sum.inl { value := "second" }))]
        ["abstract"]).warnings = [] := by
  constructor
  · rfl
  · rfl

/-- C6 amended: if the stored first value is truthy (a non-empty string,
or a list, even an empty one), any later present extraction for the same
part id is discarded with a diagnostic; but an empty-string first value
is falsy and is silently overwritten by a later single-result
extraction, with no diagnostic. -/
theorem C6_amended :
    (∀ (st : PartsState) (article defId : String)
      (p : Sum LatexResult (List LatexResult)),
      truthyPartVal (lookupRecord defId st.parts) = true →
      (processPartDef article (some p) defId st).parts = st.parts ∧
      (processPartDef article (some p) defId st).warnings =
        st.warnings ++ [(defId, article)]) ∧
    (∀ (st : PartsState) (article defId : String) (r : LatexResult),
      lookupRecord defId st.parts = some (PartVal.str "") →
      (processPartDef article (some (Sum.inl r)) defId st).parts =
        recordSet defId (PartVal.str r.value) st.parts ∧
      (processPartDef article (some (Sum.inl r)) defId st).warnings = st.warnings) := by
  constructor
  · intro st article defId p h
    simp only [processPartDef, h, if_true]
    constructor <;> trivial
  · intro st article defId r h
    have hfalse : truthyPartVal (lookupRecord defId st.parts) = false := by
      rw [h]
      rfl
    simp only [processPartDef, hfalse, Bool.false_eq_true, if_false]
    constructor <;> trivial

/-- Witness for the amended C6 theorem: a truthy first value is kept with
a warning, and an empty first value is overwritten without one. -/
theorem C6_amended_witness :
    (processPartDef "a2.md" (some (Sum.inl { value := "late" })) "abstract"
      { parts := [("abstract", PartVal.str "first")] }).parts =
        [("abstract", PartVal.str "first")] ∧
    (processPartDef "a2.md" (some (Sum.inl { value := "late" })) "abstract"
      { parts := [("abstract", PartVal.str "")] }).parts =
        [("abstract", PartVal.str "late")] := by
  constructor
  · exact (C6_amended.1 { parts := [("abstract", PartVal.str "first")] }
      "a2.md" "abstract" (Sum.inl { value := "late" }) rfl).1
  · exact ((C6_amended.2 { parts := [("abstract", PartVal.str "")] }
      "a2.md" "abstract" { value := "late" } rfl).1).trans rfl

/-! ## Raw versus templated glossary handling

Embedding of the glossary-relevant behavior of `localArticleToTexRaw`
and `localArticleToTexTemplated`.  The renderer is an external
collaborator passed as a function; the raw path also returns, for each
article in order, the glossary-printing flag it hands the renderer (the
literal false at its mdastToTex call site).  The TS ExportResults type
has an optional hasGlossaries field, embedded as an Option. -/

/-- Result of one export job run: temporary folders and the optional
glossary-presence flag. -/
structure ExportResults where
  tempFolders : List String := []
  hasGlossaries : Option Bool := none
deriving Repr, DecidableEq

/-- Embedding of `hasGlossary`: whether the tree contains a glossary
node. -/
def hasGlossary (mdast : GNode) : Bool :=
  !(selectAllType "glossary" mdast).isEmpty

/-- Embedding of `localArticleToTexRaw`, restricted to its render calls
and its returned value: every article is rendered with glossary printing
disabled, and the returned ExportResults carries only tempFolders, with
no glossary-presence flag.  The second component is the list of
glossary-printing flags passed to the renderer, in article order. -/
def localArticleToTexRaw (render : GNode → Bool → LatexResult)
    (articles : List GNode) : ExportResults × List Bool :=
  let calls := articles.map (fun a => (a, false))
  let _results := calls.map (fun c => render c.1 c.2)
  ({ tempFolders := [] }, calls.map (fun c => c.2))

/-- Embedding of the glossary bookkeeping of
`localArticleToTexTemplated`: glossary presence is accumulated across
articles by OR and reported in the returned ExportResults. -/
def localArticleToTexTemplatedGlossaries (articles : List GNode) : ExportResults :=
  { tempFolders := [],
    hasGlossaries := some (articles.foldl (fun acc a => acc || hasGlossary a) false) }

/-- An article whose tree contains a glossary node. -/
def glossaryArticle : GNode := GNode.mk "root" [GNode.mk "glossary" []]

/-- C5: for a raw export the renderer is indeed invoked with glossary
printing disabled for every article (first and second conjuncts), but
the claim also states that glossary presence is tracked and reported in
the result as for templated exports; the raw path returns no
glossary-presence flag at all, even for an article containing a
glossary, while the templated path reports it, as the comment on
runTexExport says it must. -/
theorem C5_bug :
    (∀ (render : GNode → Bool → LatexResult) (articles : List GNode),
      (localArticleToTexRaw render articles).2 = articles.map (fun _ => false)) ∧
    hasGlossary glossaryArticle = true ∧
    (localArticleToTexRaw (fun _ _ => {}) [glossaryArticle]).1.hasGlossaries = none ∧
    (localArticleToTexTemplatedGlossaries [glossaryArticle]).hasGlossaries = some true := by
  refine ⟨?_, rfl, rfl, rfl⟩
  intro render articles
  simp only [localArticleToTexRaw, List.map_map]
  rfl

/-! ## Tagged content extraction

The implementation of extractTaggedContent is not under the provided
sources for this repository; only its test file is.  The function is
therefore modelled from the specification and the behavior pinned down
by its tests: block nodes carrying the tag are emptied in place, the
returned value joins the matched content in document order with a blank
line, an absent tag yields no result and no mutation, and the configured
max_chars and max_words limits are accepted but never enforced. -/

/-- A node of the tree as the tag extractor sees it: a block with data
tags, or plain content. -/
inductive TagNode where
  | block (tags : List String) (children : List TagNode)
  | leaf (txt : String)

mutual

/-- Rendered text of a node, the concatenation of its leaf texts. -/
def tagNodeValue : TagNode → String
  | .block _ ch => tagNodeValueList ch
  | .leaf t => t

/-- Rendered text of a forest, in document order. -/
def tagNodeValueList : List TagNode → String
  | [] => ""
  | n :: ns => tagNodeValue n ++ tagNodeValueList ns

end

/-- Whether a node is a block carrying the tag. -/
def isTaggedBlock (tag : String) : TagNode → Bool
  | .block tags _ => tags.contains tag
  | .leaf _ => false

/-- Empty the children of a block, leaving other nodes unchanged. -/
def emptyChildren : TagNode → TagNode
  | .block tags _ => .block tags []
  | .leaf t => .leaf t

/-- Modelled from the spec: extractTaggedContent, whose implementation
is not under the provided sources.  Scans the top-level blocks for the
tag; with no match, the result is absent and the tree is returned
unchanged; otherwise the matched content is joined with a blank line in
document order, and the matched blocks are emptied in place.  The
max_chars and max_words limits are accepted but never applied. -/
def extractTaggedContent (tree : List TagNode) (tag : String)
    (_maxChars _maxWords : Option Nat) : Option String × List TagNode :=
  let matched := tree.filter (isTaggedBlock tag)
  if matched.isEmpty then (none, tree)
  else
    (some (String.intercalate "\n\n" (matched.map tagNodeValue)),
     tree.map (fun n => if isTaggedBlock tag n then emptyChildren n else n))

/-- The tree of the extraction test: an untagged block, a tagged block,
and a block carrying the tag among others. -/
def taggedTestTree : List TagNode :=
  [TagNode.block ["other_tag"] [TagNode.leaf "untagged content"],
   TagNode.block ["test_tag"] [TagNode.leaf "tagged content"],
   TagNode.block ["other_tag", "test_tag"] [TagNode.leaf "also tagged content"]]

/-- C7: tagged blocks are emptied in place and untagged nodes are left
untouched; the returned value is the document-order blank-line-joined
concatenation of the matched content; with no match the result is absent
and the tree unchanged; and the max_chars and max_words limits never
change the outcome. -/
theorem C7_extractTaggedContent :
    ∀ (tree : List TagNode) (tag : String) (mc mw : Option Nat),
      (extractTaggedContent tree tag mc mw = extractTaggedContent tree tag none none) ∧
      ((tree.filter (isTaggedBlock tag)).length = 0 →
        extractTaggedContent tree tag mc mw = (none, tree)) ∧
      (0 < (tree.filter (isTaggedBlock tag)).length →
        (extractTaggedContent tree tag mc mw).1 =
          some (String.intercalate "\n\n"
            ((tree.filter (isTaggedBlock tag)).map tagNodeValue)) ∧
        (extractTaggedContent tree tag mc mw).2.length = tree.length ∧
        ∀ i n, (extractTaggedContent tree tag mc mw).2.get? i = some n →
          ∃ m, tree.get? i = some m ∧
            ((isTaggedBlock tag m = false ∧ n = m) ∨
             (isTaggedBlock tag m = true ∧ n = emptyChildren m))) := by
  intro tree tag mc mw
  refine ⟨rfl, ?_, ?_⟩
  · intro h
    have hemp : (tree.filter (isTaggedBlock tag)).isEmpty = true := by
      rw [List.isEmpty_iff_length_eq_zero]
      exact h
    simp [extractTaggedContent, hemp]
  · intro h
    have hemp : (tree.filter (isTaggedBlock tag)).isEmpty = false := by
      rcases Bool.eq_false_or_eq_true ((tree.filter (isTaggedBlock tag)).isEmpty) with hc | hc
      · rw [List.isEmpty_iff_length_eq_zero] at hc
        omega
      · exact hc
    refine ⟨?_, ?_, ?_⟩
    · simp [extractTaggedContent, hemp]
    · simp [extractTaggedContent, hemp]
    · intro i n hn
      simp only [extractTaggedContent, hemp, Bool.false_eq_true, if_false] at hn
      rw [List.get?_map] at hn
      match hm : tree.get? i with
      | none => rw [hm] at hn; cases hn
      | some m =>
        rw [hm] at hn
        simp only [Option.map_some'] at hn
        injection hn with hn2
        refine ⟨m, rfl, ?_⟩
        by_cases ht : isTaggedBlock tag m = true
        · right
          refine ⟨ht, ?_⟩
          rw [← hn2, ht]
          simp
        · left
          simp only [Bool.not_eq_true] at ht
          refine ⟨ht, ?_⟩
          rw [← hn2, ht]
          simp

/-- Witness for the tagged-content theorem at the tree of the extraction
test, with limits set that the content exceeds: the full content is
still returned. -/
theorem C7_witness :
    (extractTaggedContent taggedTestTree "test_tag" (some 5) (some 1)).1 =
      some "tagged content\n\nalso tagged content" := by
  have h := (C7_extractTaggedContent taggedTestTree "test_tag" (some 5) (some 1)).2.2
    (by decide)
  rw [h.1]
  rfl

/-! ## Inline citation rendering

Embedding of `getInlineCitation`.  The source fields named like Lean
keywords are renamed: pfx and sfx stand for the option fields holding
the citation prefix and suffix text, and partialKind for the option
selecting an author-only or year-only citation.  JS string interpolation
of an absent value prints the text undefined. -/

/-- One author record; only the family name is read. -/
structure Author where
  given : String := ""
  family : String := ""
deriving Repr, DecidableEq

/-- The citation fields read by `getInlineCitation`. -/
structure CitationJson where
  author : Option (List Author) := none
  editor : Option (List Author) := none
  issued : Option (List (List Int)) := none
  publisher : Option String := none
  title : Option String := none
deriving Repr, DecidableEq

/-- The two inline citation kinds. -/
inductive InlineCite where
  | p
  | t
deriving Repr, DecidableEq

/-- The partial-citation selector of the options bag. -/
inductive PartialKind where
  | author
  | year
deriving Repr, DecidableEq

/-- The inline options bag of `getInlineCitation`. -/
structure InlineOptions where
  pfx : Option String := none
  sfx : Option String := none
  partialKind : Option PartialKind := none
deriving Repr, DecidableEq

/-- A produced inline node: text, or emphasis with children. -/
inductive InlineNode where
  | mk (ty : String) (value : String) (children : List InlineNode)

/-- Text node constructor. -/
def textNode (v : String) : InlineNode := InlineNode.mk "text" v []

/-- JS interpolation of a possibly absent integer. -/
def jsShowOptInt : Option Int → String
  | none => "undefined"
  | some i => if i < 0 then "-" ++ natToDecimal (-i).toNat else natToDecimal i.toNat

/-- JS interpolation of a possibly absent string. -/
def jsShowOptStr : Option String → String
  | none => "undefined"
  | some s => s

/-- The year lookup: first entry of the first date-parts row, when
present. -/
def citationYear (d : CitationJson) : Option Int :=
  match d.issued with
  | none => none
  | some dp =>
    match dp.head? with
    | none => none
    | some row => row.head?

/-- Family name of the author at an index, as JS member access on the
guarded list accesses of the source. -/
def familyAt (l : List Author) (i : Nat) : String :=
  match l.get? i with
  | some a => a.family
  | none => "undefined"

/-- Embedding of `getInlineCitation`, with the throw embedded as an
error value. -/
def getInlineCitation (data : CitationJson) (kind : InlineCite)
    (opts : Option InlineOptions) : Except String (List InlineNode) :=
  let authors :=
    match data.author with
    | none => data.editor
    | some l => if l.isEmpty then data.editor else some l
  let year := jsShowOptInt (citationYear data)
  let pfxText :=
    match opts with
    | some o =>
      match o.pfx with
      | some s => if s == "" then "" else s ++ " "
      | none => ""
    | none => ""
  let sfxText :=
    match opts with
    | some o =>
      match o.sfx with
      | some s => if s == "" then "" else ", " ++ s
      | none => ""
    | none => ""
  let yearPart0 :=
    if kind = InlineCite.t then " (" ++ year ++ sfxText ++ ")"
    else ", " ++ year ++ sfxText
  let isPartialAuthor :=
    match opts with
    | some o => o.partialKind == some PartialKind.author
    | none => false
  let yearPart := if isPartialAuthor then "" else yearPart0
  let isPartialYear :=
    match opts with
    | some o => o.partialKind == some PartialKind.year
    | none => false
  if isPartialYear then
    let onlyYear :=
      if kind = InlineCite.t then "(" ++ year ++ sfxText ++ ")" else year ++ sfxText
    Except.ok [textNode onlyYear]
  else
    match authors with
    | none =>
      let txt :=
        match data.publisher with
        | some s => if s == "" then jsShowOptStr data.title else s
        | none => jsShowOptStr data.title
      Except.ok [textNode (pfxText ++ txt ++ yearPart)]
    | some l =>
      if l.length == 0 then
        let txt :=
          match data.publisher with
          | some s => if s == "" then jsShowOptStr data.title else s
          | none => jsShowOptStr data.title
        Except.ok [textNode (pfxText ++ txt ++ yearPart)]
      else if l.length == 1 then
        Except.ok [textNode (pfxText ++ familyAt l 0 ++ yearPart)]
      else if l.length == 2 then
        Except.ok [textNode (pfxText ++ familyAt l 0 ++ " & " ++ familyAt l 1 ++ yearPart)]
      else if l.length > 2 then
        Except.ok [textNode (pfxText ++ familyAt l 0 ++ " "),
          InlineNode.mk "emphasis" "" [textNode "et al."],
          textNode yearPart]
      else Except.error "Unknown number of authors for citation"

/-- C9: `getInlineCitation` is total: on every input it returns a
non-empty list of inline nodes, and its final error branch is
unreachable, because the no-author case returns earlier via publisher or
title and author list lengths one, two and above two are each handled. -/
theorem C9_getInlineCitation_total :
    ∀ (data : CitationJson) (kind : InlineCite) (opts : Option InlineOptions),
      ∃ l, getInlineCitation data kind opts = Except.ok l ∧ l ≠ [] := by
  intro data kind opts
  unfold getInlineCitation
  dsimp only
  repeat' split
  all_goals try exact ⟨_, rfl, by simp⟩
  all_goals exfalso
  all_goals simp only [beq_iff_eq, not_lt] at *
  all_goals omega

/-! ## Jupyter server discovery

Embedding of `findExistingJupyterServer` from manager.ts.  The
subprocess listing servers is external: its exit status and parsed
server list are inputs.  The JS sort comparator subtracts pids, an
ascending stable sort, embedded as a stable merge sort on the pid
order; pop takes the last element. -/

/-- One entry of the server list, restricted to the fields read. -/
structure JupyterServerListItem where
  base_url : String := ""
  pid : Nat := 0
  token : String := ""
  url : String := ""
deriving Repr, DecidableEq

/-- The settings returned for a discovered server. -/
structure JupyterServerSettings where
  baseUrl : String
  token : String
deriving Repr, DecidableEq

/-- Embedding of `findExistingJupyterServer`: undefined on a non-zero
exit status or an empty list, else the url and token of the last server
after an ascending stable sort by pid. -/
def findExistingJupyterServer (status : Int) (servers : List JupyterServerListItem) :
    Option JupyterServerSettings :=
  if status ≠ 0 then none
  else if servers.length == 0 then none
  else
    let sorted := servers.mergeSort (fun a b => a.pid ≤ b.pid)
    match sorted.getLast? with
    | some server => some { baseUrl := server.url, token := server.token }
    | none => none

theorem pairwise_getLast_ge {α : Type} {r : α → α → Prop} {l : List α} {x : α}
    (hp : l.Pairwise r) (hx : l.getLast? = some x) (hrx : r x x) :
    ∀ t ∈ l, r t x := by
  rcases List.getLast?_eq_some_iff.mp hx with ⟨ys, hys⟩
  subst hys
  rw [List.pairwise_append] at hp
  intro t ht
  rcases List.mem_append.mp ht with h | h
  · exact hp.2.2 t h x (by simp)
  · simp only [List.mem_singleton] at h
    subst h
    exact hrx

/-- C10: `findExistingJupyterServer` returns no settings when the
listing subprocess exits non-zero or reports no servers; on a non-empty
list it returns the url (as baseUrl) and token of a listed server whose
pid is maximal. -/
theorem C10_findExistingJupyterServer :
    ∀ (status : Int) (servers : List JupyterServerListItem),
      (findExistingJupyterServer status servers = none ↔
        (status ≠ 0 ∨ servers = [])) ∧
      (∀ st, findExistingJupyterServer status servers = some st →
        ∃ s, s ∈ servers ∧ (∀ t ∈ servers, t.pid ≤ s.pid) ∧
          st = { baseUrl := s.url, token := s.token }) := by
  intro status servers
  by_cases hstat : status ≠ 0
  · constructor
    · simp [findExistingJupyterServer, hstat]
    · intro st hst
      simp [findExistingJupyterServer, hstat] at hst
  · rw [not_not] at hstat
    subst hstat
    rcases hsv : servers with _ | ⟨a, rest⟩
    · constructor
      · simp [findExistingJupyterServer]
      · intro st hst
        simp [findExistingJupyterServer] at hst
    · have hperm := List.mergeSort_perm (a :: rest)
        (fun s t => s.pid ≤ t.pid)
      have hlen : ((a :: rest).mergeSort (fun s t => s.pid ≤ t.pid)).length =
          rest.length + 1 := by
        rw [hperm.length_eq]
        rfl
      have hne : (a :: rest).mergeSort (fun s t => s.pid ≤ t.pid) ≠ [] := by
        intro hc
        rw [hc] at hlen
        simp at hlen
      have hsome : (((a :: rest).mergeSort (fun s t => s.pid ≤ t.pid)).getLast?).isSome := by
        rw [List.getLast?_isSome]
        exact hne
      rcases Option.isSome_iff_exists.mp hsome with ⟨x, hx⟩
      have hres : findExistingJupyterServer 0 (a :: rest) =
          some { baseUrl := x.url, token := x.token } := by
        unfold findExistingJupyterServer
        rw [if_neg (by simp)]
        rw [if_neg (by simp)]
        dsimp only
        rw [hx]
      have hsorted := @List.sorted_mergeSort JupyterServerListItem
        (fun s t => s.pid ≤ t.pid)
        (by
          intro s t u hst htu
          simp only [decide_eq_true_eq] at *
          omega)
        (by
          intro s t
          simp only [Bool.or_eq_true, decide_eq_true_eq]
          omega)
        (a :: rest)
      have hmax := pairwise_getLast_ge hsorted hx (by simp)
      constructor
      · constructor
        · intro hc
          rw [hres] at hc
          cases hc
        · intro hc
          rcases hc with hc | hc
          · exact absurd rfl hc
          · cases hc
      · intro st hst
        rw [hres] at hst
        injection hst with hst2
        refine ⟨x, ?_, ?_, hst2.symm⟩
        · exact hperm.mem_iff.mp (List.mem_of_getLast?_eq_some hx)
        · intro t ht
          have htx := hmax t (hperm.mem_iff.mpr ht)
          simpa using htx

/-- Witness for the server-discovery theorem: a non-zero exit status
yields no settings. -/
theorem C10_witness :
    findExistingJupyterServer 1 [] = none :=
  (C10_findExistingJupyterServer 1 []).1.mpr (Or.inr rfl)
